import Mathlib

/-!
Shallow embedding of the cost aggregation and change-detection engine of the
aws-cost-reporter repository (src/pacioli), together with proofs about the
claims of its specification.

Conventions of the embedding:
* Cost amounts are modelled as rational numbers; the Python code works on
  IEEE floats, whose rounding is not modelled here.
* The nested Python dictionaries `daily_cumsum[entity][month][day]` are
  modelled by a `Table` structure: a total function into `Option` for the
  values, a boolean month-membership function mirroring the Python `in`
  test on the month dictionaries, and the insertion-ordered entity key
  list that drives the result iteration.
* Python exceptions (the `KeyError` raised by a direct lookup of a missing
  day) are modelled with `Option`: `none` marks the raising path.
-/

/-- Calendar date as carried by the `datetime.date` values of the code;
only year, month and day take part in any computation of the engine. -/
structure Date where
  year : Nat
  month : Nat
  day : Nat
deriving DecidableEq, Repr

/-- Lexicographic order on dates, matching comparison of `datetime.date`
values in Python (`sort_by_periodstart`, the earliest and latest scans). -/
def dateLe (a b : Date) : Prop :=
  a.year < b.year ∨ (a.year = b.year ∧
    (a.month < b.month ∨ (a.month = b.month ∧ a.day ≤ b.day)))

/-- Strict lexicographic order on dates. -/
def dateLt (a b : Date) : Prop :=
  a.year < b.year ∨ (a.year = b.year ∧
    (a.month < b.month ∨ (a.month = b.month ∧ a.day < b.day)))

instance : DecidableRel dateLe := fun a b => by unfold dateLe; infer_instance

instance : DecidableRel dateLt := fun a b => by unfold dateLt; infer_instance

/-- One `Groups` entry of a `ResultsByTime` period: the grouping key list
and the `UnblendedCost` amount. -/
structure CostGroup where
  keys : List String
  amount : ℚ
deriving DecidableEq, Repr

/-- One `ResultsByTime` entry: its `TimePeriod.Start` date and its groups. -/
structure Period where
  start : Date
  groups : List CostGroup
deriving DecidableEq, Repr

/-- Entity id of a group, as computed by the code: the join
of the key list with the empty separator. -/
def gKey (g : CostGroup) : String := String.join g.keys

/-- Month and day key pair under which a period is written into the
cumulative table (`day.month`, `day.day` in the code). -/
def Period.md (p : Period) : Nat × Nat := (p.start.month, p.start.day)

/-- Strict lexicographic order on (month, day) key pairs. -/
def mdLt (a b : Nat × Nat) : Prop := a.1 < b.1 ∨ (a.1 = b.1 ∧ a.2 < b.2)

instance : DecidableRel mdLt := fun a b => by unfold mdLt; infer_instance

/-- Model of the nested dictionary `daily_cumsum`.  `val e m d` is the
entry of entity `e` for month `m` and day `d` (`none` when absent),
`months e m` mirrors the Python test `m in daily_cumsum[e]`, and
`entities` is the insertion-ordered list of outer keys. -/
structure Table where
  val : String → Nat → Nat → Option ℚ
  months : String → Nat → Bool
  entities : List String

/-- Empty table, the initial `defaultdict` value. -/
def emptyTable : Table := ⟨fun _ _ _ => none, fun _ _ => false, []⟩

/-- Carried-in value of the aggregation loop (`previous_total` at
managers.py lines 434-437 and 314-319): zero when the day is 1 or the
previous day is absent from the month table of the entity, and the entry
of the previous day otherwise. -/
def carryIn (t : Table) (e : String) (m d : Nat) : ℚ :=
  if d = 1 ∨ t.val e m (d - 1) = none then 0 else (t.val e m (d - 1)).getD 0

/-- Processing of a single group inside the aggregation loop, embedding
managers.py lines 430-440 (projects) and the semantically identical lines
312-322 (accounts): the entry of the period day becomes the carried-in
value plus the cost amount of the group. -/
def stepGroup (m d : Nat) (t : Table) (g : CostGroup) : Table :=
  let e := gKey g
  let previousTotal : ℚ := carryIn t e m d
  { val := fun e' m' d' =>
      if e' = e ∧ m' = m ∧ d' = d then some (previousTotal + g.amount) else t.val e' m' d'
    months := fun e' m' => if e' = e ∧ m' = m then true else t.months e' m'
    entities := if e ∈ t.entities then t.entities else t.entities ++ [e] }

/-- Processing of one `ResultsByTime` period: fold the group step over the
groups of the period, keyed by the month and day of the period start. -/
def stepPeriod (t : Table) (p : Period) : Table :=
  p.groups.foldl (stepGroup p.start.month p.start.day) t

/-- Aggregation of a period list into the cumulative table, starting from
a given table (used to reason about the fold). -/
def buildFrom (t : Table) (ps : List Period) : Table := ps.foldl stepPeriod t

/-- Aggregation of a period list into the cumulative table in the order
given, as the loops of `get_change_in_accounts` and
`get_change_in_projects` do. -/
def buildTable (ps : List Period) : Table := buildFrom emptyTable ps

/-- Order on periods by their start date, the key used by
`sorted(results, key=sort_by_periodstart)`. -/
def periodLe (p q : Period) : Prop := dateLe p.start q.start

instance : DecidableRel periodLe := fun p q => by unfold periodLe; infer_instance

/-- Model of the Python `sorted` call on the period list (stable sort by
period start date). -/
def sortByStart (ps : List Period) : List Period := List.insertionSort periodLe ps

/-- Cumulative table built by `get_change_in_projects` (managers.py line
428): the periods are sorted by start date before aggregation. -/
def projectsBuildTable (ps : List Period) : Table := buildTable (sortByStart ps)

/-- Cumulative table built by `get_change_in_accounts` (managers.py lines
308-322): periods with a start date after `most_recent_full_date` are
skipped, and the remaining periods are processed in arrival order, with
no sort. -/
def accountsBuildTable (mostRecentFullDate : Date) (ps : List Period) : Table :=
  buildTable (ps.filter (fun p => decide (dateLe p.start mostRecentFullDate)))

/-- Modelled from the spec: the constant `MIN_PERCENTAGE_CHANGE` is
imported by managers.py from `pacioli.settings` but is absent from the
provided sources; the spec calls it a small positive threshold, e.g.
0.01, and the code comment at managers.py line 341 confirms the value. -/
def MIN_PERCENTAGE_CHANGE : ℚ := 1 / 100

/-- Rounding of a rational to the nearest integer with ties to even,
the rounding mode of the Python builtin `round`. -/
def roundHalfEven (q : ℚ) : ℤ :=
  let n := ⌊q⌋
  let f := q - n
  if f < 1 / 2 then n
  else if 1 / 2 < f then n + 1
  else if Even n then n else n + 1

/-- Model of the Python `round(x, 1)`: round to one decimal place, ties
to even.  The binary-float artifacts of the real `round` are not
modelled. -/
def pyRound1 (x : ℚ) : ℚ := (roundHalfEven (10 * x) : ℚ) / 10

/-- Percentage-change formula shared by both change calculations
(managers.py lines 340-342 and 384-387): the rounded relative change when
both values reach the threshold, and zero otherwise. -/
def percentageChangeOf (current previous : ℚ) : ℚ :=
  if MIN_PERCENTAGE_CHANGE ≤ current ∧ MIN_PERCENTAGE_CHANGE ≤ previous then
    pyRound1 ((current / previous - 1) * 100)
  else 0

/-- Embedding of `CostManager._get_previous_value` (managers.py lines
269-293): zero when the aligned day is at most 1, zero when the day is
absent from the table of the given month, and the table entry otherwise. -/
def getPreviousValue (t : Table) (e : String) (m : Nat) (previousMonthDay : Nat) : ℚ :=
  if previousMonthDay ≤ 1 then 0
  else
    match t.val e m previousMonthDay with
    | none => 0
    | some v => v

/-- Current, previous and percentage fields of one change result entry. -/
structure ChangeEntry where
  current : ℚ
  previous : ℚ
  pct : ℚ
deriving DecidableEq, Repr

/-- Per-account body of the result loop of `get_change_in_accounts`
(managers.py lines 331-352).  The current cost is a direct dictionary
lookup of the latest month and day (line 332); a missing entry raises a
`KeyError` in Python, modelled by `none`.  The aligned previous-month day
is decremented once when absent from the earliest month (lines 333-335),
then resolved through `_get_previous_value`. -/
def accountChange (t : Table) (earliestMonth latestMonth latestDay : Nat)
    (e : String) : Option ChangeEntry :=
  match t.val e latestMonth latestDay with
  | none => none
  | some current =>
    let previousMonthDay :=
      if t.val e earliestMonth latestDay = none then latestDay - 1 else latestDay
    let previous := getPreviousValue t e earliestMonth previousMonthDay
    some ⟨current, previous, percentageChangeOf current previous⟩

/-- Walk-back loop of `_get_project_change` (managers.py lines 372-373):
starting from the latest day, decrement while the day is at least 1 and
absent from the month table; the result is either a present day, or 0
when no present day at least 1 remains. -/
def walkBack (f : Nat → Option ℚ) : Nat → Nat
  | 0 => 0
  | d + 1 => if (f (d + 1)).isSome then d + 1 else walkBack f d

/-- Result entry of `_get_project_change` for one project.  The current
cost is an `Option`: the code initialises `current = None` and leaves it
unset when the walk-back finds no day (the later model construction then
rejects the `None`), so `none` marks that path. -/
structure ProjectEntry where
  rawId : String
  current : Option ℚ
  previous : ℚ
  pct : ℚ
deriving DecidableEq, Repr

/-- Per-project body of `CostManager._get_project_change` (managers.py
lines 362-412), for raw project id `e`.  Branches, in source order: when
the latest month is present, walk back from the latest day; when a day is
found, align the previous-month day (decrementing once when absent) and
compute the percentage only when the aligned day is present; when the
walk-back fails, `current` stays `none`.  When the latest month is
absent, `current` is zero, the percentage stays zero, and `previous` is
still looked up in the earliest month. -/
def projectChange (t : Table) (earliest latest : Date) (e : String) : ProjectEntry :=
  if t.months e latest.month then
    let d0 := walkBack (fun d => t.val e latest.month d) latest.day
    if 1 ≤ d0 then
      let current := (t.val e latest.month d0).getD 0
      if t.months e earliest.month then
        let previousMonthDay :=
          if t.val e earliest.month latest.day = none then latest.day - 1 else latest.day
        match t.val e earliest.month previousMonthDay with
        | some previous => ⟨e, some current, previous, percentageChangeOf current previous⟩
        | none => ⟨e, some current, 0, 0⟩
      else ⟨e, some current, 0, 0⟩
    else ⟨e, none, 0, 0⟩
  else
    if t.months e earliest.month then
      let previousMonthDay :=
        if t.val e earliest.month latest.day = none then latest.day - 1 else latest.day
      match t.val e earliest.month previousMonthDay with
      | some previous => ⟨e, some 0, previous, 0⟩
      | none => ⟨e, some 0, 0, 0⟩
    else ⟨e, some 0, 0, 0⟩

/-- Result list of `_get_project_change`: one entry for every raw project
id of the cumulative table, in iteration order. -/
def projectChangeList (t : Table) (earliest latest : Date) : List ProjectEntry :=
  t.entities.map (projectChange t earliest latest)

/-- Fuel-indexed replacement of every non-overlapping occurrence of a
pattern in a character list, scanning left to right; with fuel at least
the length of the list and a nonempty pattern this is the semantics of
the Python `str.replace`. -/
def replaceFuel (pat rep : List Char) : Nat → List Char → List Char
  | 0, l => l
  | n + 1, l =>
    if pat.isPrefixOf l then rep ++ replaceFuel pat rep n (l.drop pat.length)
    else
      match l with
      | [] => []
      | c :: cs => c :: replaceFuel pat rep n cs

/-- Model of the Python `str.replace`: replace every non-overlapping
occurrence of the pattern, scanning left to right; with an empty pattern
the string is returned unchanged (the engine only ever passes the
nonempty pattern). -/
def pyReplace (s pat rep : String) : String :=
  if pat.data = [] then s
  else ⟨replaceFuel pat.data rep.data s.data.length s.data⟩

/-- Model of the Python `str.strip` with no argument: remove leading and
trailing whitespace characters. -/
def pyStrip (s : String) : String :=
  ⟨((s.data.dropWhile Char.isWhitespace).reverse.dropWhile Char.isWhitespace).reverse⟩

/-- Embedding of the display id computation shared by
`ProjectCostChange.id` (definitions.py lines 27-30) and managers.py lines
367 and 581: every occurrence of the tag prefix is removed with
`str.replace` and surrounding whitespace is stripped. -/
def projectDisplayId (raw : String) : String := pyStrip (pyReplace raw "ProjectId$" "")

/-- Modelled from the spec: the constant `TAX_SERVICE_NAME` is imported
by managers.py from `pacioli.settings` but is absent from the provided
sources; the spec and the tests of the repository fix the excluded
service name as the string Tax, matching `DEFAULT_EXCLUDE_TAGS` at
managers.py line 17. -/
def TAX_SERVICE_NAME : String := "Tax"

/-- One (service name, cost) output pair, as in definitions.py. -/
structure ServiceCost where
  name : String
  cost : ℚ
deriving DecidableEq, Repr

/-- Order on service costs by descending cost, the key of the sort at
managers.py line 602. -/
def costGe (a b : ServiceCost) : Prop := b.cost ≤ a.cost

instance : DecidableRel costGe := fun a b => by unfold costGe; infer_instance

/-- Per-project body of `ReportManager.generate_projectid_itemized_report`
(managers.py lines 589-603): service entries whose name equals the tax
service name are skipped, the rest are sorted by descending cost. -/
def itemizedServices (services : List (String × ℚ)) : List ServiceCost :=
  List.insertionSort costGe
    ((services.filter (fun s => s.1 ≠ TAX_SERVICE_NAME)).map (fun s => ⟨s.1, s.2⟩))

/-- Embedding of the `ProjectServicesCost.total_cost` property
(definitions.py lines 54-60): the sum of the costs of the listed
services. -/
def totalCost (services : List ServiceCost) : ℚ := (services.map ServiceCost.cost).sum

/-- First day of the month of a date. -/
def monthStartOf (d : Date) : Date := ⟨d.year, d.month, 1⟩

/-- First day of the month before the month of a date. -/
def previousMonthStartOf (d : Date) : Date :=
  if d.month = 1 then ⟨d.year - 1, 12, 1⟩ else ⟨d.year, d.month - 1, 1⟩

/-- Modelled from the spec: `get_month_starts` is imported by managers.py
from `pacioli.functions` but its definition is absent from the provided
sources (only the legacy helper `_get_month_starts` of the chart path
remains there, with different semantics).  Following spec section 4.1,
the most recent full date is the date of `now` itself when its
day-of-month is 1 and the date of `now` minus one day otherwise, the
current month start is the first day of the month of that date, and the
previous month start is the first day of the month before it.  The
repository tests of `generate_accounts_report` (now 2022-11-15, current
cost summed through 11-14) agree with this model. -/
def get_month_starts (now : Date) : Date × Date × Date :=
  let mostRecentFullDate : Date :=
    if now.day = 1 then now else ⟨now.year, now.month, now.day - 1⟩
  (mostRecentFullDate, monthStartOf mostRecentFullDate,
    previousMonthStartOf mostRecentFullDate)

/-- Example period: 2022-11-01, account A, cost 3. -/
def exPeriodNov1 : Period := ⟨⟨2022, 11, 1⟩, [⟨["A"], 3⟩]⟩

/-- Example period: 2022-11-02, account A, cost 5. -/
def exPeriodNov2 : Period := ⟨⟨2022, 11, 2⟩, [⟨["A"], 5⟩]⟩

/-- Example input in ascending date order. -/
def exPsSorted : List Period := [exPeriodNov1, exPeriodNov2]

/-- Example input in descending date order, a legal fetcher output since
the fetcher does not guarantee any order. -/
def exPsRev : List Period := [exPeriodNov2, exPeriodNov1]

/-- Example input where account B has data only in the earliest month
(October) while account A has data in the latest month (November). -/
def exPsAccountGap : List Period :=
  [⟨⟨2022, 10, 14⟩, [⟨["B"], 7⟩]⟩, ⟨⟨2022, 11, 14⟩, [⟨["A"], 2⟩]⟩]

/-- Example table holding the spec threshold fixture: project P has a
current cumulative cost of 0.005 on the latest day 14 of month 11 and a
previous cumulative cost of 10.0 on day 14 of month 10. -/
def exTableThreshold : Table :=
  ⟨fun e m d =>
      if e = "P" ∧ m = 11 ∧ d = 14 then some (1 / 200)
      else if e = "P" ∧ m = 10 ∧ d = 14 then some 10
      else none,
    fun e m => decide (e = "P" ∧ (m = 10 ∨ m = 11)),
    ["P"]⟩

/-- Example table where project P has latest-month (11) data only for
day 3, so the walk-back from latest day 5 must settle on day 3. -/
def exTableWalk : Table :=
  ⟨fun e m d => if e = "P" ∧ m = 11 ∧ d = 3 then some 4 else none,
    fun e m => decide (e = "P" ∧ m = 11),
    ["P"]⟩

/-- Example table where account A has a day-1 entry in both months; the
earliest month is 10, the latest month 11 with latest day 1. -/
def exTableDay1 : Table :=
  ⟨fun e m d =>
      if e = "A" ∧ m = 10 ∧ d = 1 then some 7
      else if e = "A" ∧ m = 11 ∧ d = 1 then some 2
      else none,
    fun e m => decide (e = "A" ∧ (m = 10 ∨ m = 11)),
    ["A"]⟩

/-- Example raw (service, cost) input holding a Tax entry. -/
def exServices : List (String × ℚ) := [("AmazonEC2", 5), ("Tax", 2), ("AmazonS3", 1)]

/-! Helper lemmas about the date orders and the aggregation fold. -/

theorem dateLe_total (a b : Date) : dateLe a b ∨ dateLe b a := by
  unfold dateLe; omega

theorem dateLe_trans {a b c : Date} (h1 : dateLe a b) (h2 : dateLe b c) : dateLe a c := by
  unfold dateLe at *; omega

theorem dateLt_of_dateLe_of_ne {a b : Date} (h1 : dateLe a b) (h2 : a ≠ b) : dateLt a b := by
  have h3 : ¬(a.year = b.year ∧ a.month = b.month ∧ a.day = b.day) := by
    intro hall
    apply h2
    cases a; cases b
    simp only [Date.mk.injEq]
    exact ⟨hall.1, hall.2.1, hall.2.2⟩
  unfold dateLe at h1
  unfold dateLt
  omega

theorem dateLt_asymm {a b : Date} (h1 : dateLt a b) (h2 : dateLt b a) : False := by
  unfold dateLt at *; omega

instance : IsTotal Period periodLe := ⟨fun p q => dateLe_total p.start q.start⟩

instance : IsTrans Period periodLe := ⟨fun _ _ _ h1 h2 => dateLe_trans h1 h2⟩

/-- Strict comparison of periods by start date. -/
def periodLtStart (p q : Period) : Prop := dateLt p.start q.start

instance : IsAntisymm Period periodLtStart :=
  ⟨fun _ _ h1 h2 => (dateLt_asymm h1 h2).elim⟩

theorem mdLt_irrefl (a : Nat × Nat) : ¬ mdLt a a := by unfold mdLt; omega

theorem val_stepGroup_ne (m0 d0 : Nat) (t : Table) (g : CostGroup) {e : String} {m d : Nat}
    (h : ¬(e = gKey g ∧ m = m0 ∧ d = d0)) :
    (stepGroup m0 d0 t g).val e m d = t.val e m d := by
  simp only [stepGroup]
  exact if_neg h

theorem val_stepGroup_write (m0 d0 : Nat) (t : Table) (g : CostGroup) :
    (stepGroup m0 d0 t g).val (gKey g) m0 d0 = some (carryIn t (gKey g) m0 d0 + g.amount) := by
  simp [stepGroup]

theorem val_foldl_stepGroup_ne (m0 d0 : Nat) (gs : List CostGroup) {e : String} {m d : Nat} :
    ∀ t : Table, (∀ g ∈ gs, ¬(e = gKey g ∧ m = m0 ∧ d = d0)) →
      (gs.foldl (stepGroup m0 d0) t).val e m d = t.val e m d := by
  induction gs with
  | nil => intro t _; rfl
  | cons g gs ih =>
    intro t h
    rw [List.foldl_cons, ih _ (fun g' hg' => h g' (List.mem_cons_of_mem _ hg')),
      val_stepGroup_ne _ _ _ _ (h g (List.mem_cons_self _ _))]

theorem val_stepPeriod_ne (t : Table) (p : Period) {e : String} {m d : Nat}
    (h : ∀ g ∈ p.groups, ¬(e = gKey g ∧ m = p.start.month ∧ d = p.start.day)) :
    (stepPeriod t p).val e m d = t.val e m d :=
  val_foldl_stepGroup_ne _ _ _ _ h

theorem val_stepPeriod_ne_md (t : Table) (p : Period) {e : String} {m d : Nat}
    (h : ¬(m = p.start.month ∧ d = p.start.day)) :
    (stepPeriod t p).val e m d = t.val e m d :=
  val_stepPeriod_ne t p (fun _ _ hc => h ⟨hc.2.1, hc.2.2⟩)

theorem val_buildFrom_ne (ps : List Period) {e : String} {m d : Nat} :
    ∀ t : Table, (∀ p ∈ ps, ∀ g ∈ p.groups, ¬(e = gKey g ∧ m = p.start.month ∧ d = p.start.day)) →
      (buildFrom t ps).val e m d = t.val e m d := by
  induction ps with
  | nil => intro t _; rfl
  | cons p ps ih =>
    intro t h
    show (buildFrom (stepPeriod t p) ps).val e m d = t.val e m d
    rw [ih _ (fun q hq => h q (List.mem_cons_of_mem _ hq)),
      val_stepPeriod_ne _ _ (h p (List.mem_cons_self _ _))]

theorem exists_write_of_val_some (ps : List Period) {e : String} {m d : Nat} {v : ℚ}
    (h : (buildTable ps).val e m d = some v) :
    ∃ p ∈ ps, ∃ g ∈ p.groups, e = gKey g ∧ m = p.start.month ∧ d = p.start.day := by
  by_contra hc
  have hne : ∀ p ∈ ps, ∀ g ∈ p.groups, ¬(e = gKey g ∧ m = p.start.month ∧ d = p.start.day) :=
    fun p hp g hg hh => hc ⟨p, hp, g, hg, hh⟩
  rw [buildTable, val_buildFrom_ne ps emptyTable hne] at h
  simp [emptyTable] at h

theorem carryIn_congr {t t' : Table} {e : String} {m d : Nat}
    (h : t.val e m (d - 1) = t'.val e m (d - 1)) : carryIn t e m d = carryIn t' e m d := by
  simp [carryIn, h]

theorem carryIn_eq_ite (t : Table) (e : String) (m d : Nat) :
    carryIn t e m d = if d = 1 then 0 else (t.val e m (d - 1)).getD 0 := by
  unfold carryIn
  rcases hv : t.val e m (d - 1) with _ | v
  · simp
  · simp

theorem val_stepPeriod_write (t : Table) (p : Period) {g : CostGroup} (hg : g ∈ p.groups)
    (hnd : (p.groups.map gKey).Nodup) :
    (stepPeriod t p).val (gKey g) p.start.month p.start.day =
      some (carryIn t (gKey g) p.start.month p.start.day + g.amount) := by
  obtain ⟨l₁, l₂, hsplit⟩ := List.append_of_mem hg
  rw [hsplit] at hnd
  simp only [List.map_append, List.map_cons, List.nodup_append, List.nodup_cons,
    List.mem_cons, List.mem_map, List.disjoint_left] at hnd
  have h₁ : ∀ g' ∈ l₁, gKey g' ≠ gKey g := by
    intro g' hg' heq
    exact hnd.2.2 ⟨g', hg', heq⟩ (Or.inl rfl)
  have h₂ : ∀ g' ∈ l₂, gKey g' ≠ gKey g := by
    intro g' hg' heq
    exact hnd.2.1.1 ⟨g', hg', heq⟩
  show (p.groups.foldl (stepGroup p.start.month p.start.day) t).val
      (gKey g) p.start.month p.start.day = _
  rw [hsplit, List.foldl_append, List.foldl_cons]
  rw [val_foldl_stepGroup_ne _ _ l₂ _ (fun g' hg' hc => h₂ g' hg' hc.1.symm)]
  rw [val_stepGroup_write]
  have hcell : (l₁.foldl (stepGroup p.start.month p.start.day) t).val
      (gKey g) p.start.month (p.start.day - 1) = t.val (gKey g) p.start.month (p.start.day - 1) :=
    val_foldl_stepGroup_ne _ _ l₁ _ (fun g' hg' hc => h₁ g' hg' hc.1.symm)
  rw [carryIn_congr hcell]

theorem val_buildTable_recurrence (ps : List Period)
    (hsort : ps.Pairwise (fun p q => mdLt p.md q.md))
    (hnd : ∀ p ∈ ps, (p.groups.map gKey).Nodup)
    (hday : ∀ p ∈ ps, 1 ≤ p.start.day)
    {p : Period} (hp : p ∈ ps) {g : CostGroup} (hg : g ∈ p.groups) :
    (buildTable ps).val (gKey g) p.start.month p.start.day =
      some ((if p.start.day = 1 then 0
        else ((buildTable ps).val (gKey g) p.start.month (p.start.day - 1)).getD 0)
        + g.amount) := by
  obtain ⟨l₁, l₂, hps⟩ := List.append_of_mem hp
  subst hps
  have hq₂ : ∀ q ∈ l₂, mdLt p.md q.md := by
    intro q hq
    have := (List.pairwise_append.mp hsort).2.1
    exact (List.pairwise_cons.mp this).1 q hq
  have hpd : 1 ≤ p.start.day := hday p (by simp)
  have hbuild : buildTable (l₁ ++ p :: l₂)
      = buildFrom (stepPeriod (buildFrom emptyTable l₁) p) l₂ := by
    simp [buildTable, buildFrom, List.foldl_append]
  have hl₂ne : ∀ {dd : Nat}, ¬ mdLt p.md (p.start.month, dd) →
      ∀ q ∈ l₂, ∀ g' ∈ q.groups,
        ¬(gKey g = gKey g' ∧ p.start.month = q.start.month ∧ dd = q.start.day) := by
    intro dd hdd q hq g' _ hc
    have hlt := hq₂ q hq
    have : q.md = (p.start.month, dd) := by
      simp [Period.md, ← hc.2.1, ← hc.2.2]
    rw [this] at hlt
    unfold mdLt Period.md at hlt hdd
    simp at hlt hdd
    omega
  have hcur : ¬ mdLt p.md (p.start.month, p.start.day) := by
    unfold Period.md
    exact mdLt_irrefl _
  have hprevlt : ¬ mdLt p.md (p.start.month, p.start.day - 1) := by
    unfold mdLt Period.md
    simp
  have hfinal : (buildTable (l₁ ++ p :: l₂)).val (gKey g) p.start.month p.start.day
      = (stepPeriod (buildFrom emptyTable l₁) p).val (gKey g) p.start.month p.start.day := by
    rw [hbuild]
    exact val_buildFrom_ne l₂ _ (hl₂ne hcur)
  have hwrite := val_stepPeriod_write (buildFrom emptyTable l₁) p hg (hnd p (by simp))
  have hprev : (buildTable (l₁ ++ p :: l₂)).val (gKey g) p.start.month (p.start.day - 1)
      = (buildFrom emptyTable l₁).val (gKey g) p.start.month (p.start.day - 1) := by
    rw [hbuild, val_buildFrom_ne l₂ _ (hl₂ne hprevlt),
      val_stepPeriod_ne_md _ _ (fun hc => by omega)]
  rw [hfinal, hwrite, carryIn_eq_ite, hprev]

theorem walkBack_eq_of (f : Nat → Option ℚ) :
    ∀ D d', 1 ≤ d' → d' ≤ D → (f d').isSome →
      (∀ d'', d' < d'' → d'' ≤ D → f d'' = none) → walkBack f D = d' := by
  intro D
  induction D with
  | zero => intro d' h1 h2 _ _; omega
  | succ n ih =>
    intro d' h1 h2 hsome habove
    by_cases hD : (f (n + 1)).isSome
    · have hde : d' = n + 1 := by
        by_contra hne
        have := habove (n + 1) (by omega) (le_refl _)
        rw [this] at hD
        simp at hD
      subst hde
      simp [walkBack, hD]
    · have hd'ne : d' ≠ n + 1 := fun h => hD (h ▸ hsome)
      simp only [walkBack, hD, if_false]
      exact ih d' h1 (by omega) hsome (fun d'' hgt hle => habove d'' hgt (by omega))

theorem walkBack_eq_zero (f : Nat → Option ℚ) :
    ∀ D, (∀ d', 1 ≤ d' → d' ≤ D → f d' = none) → walkBack f D = 0 := by
  intro D
  induction D with
  | zero => intro _; rfl
  | succ n ih =>
    intro h
    have hD : ¬ (f (n + 1)).isSome := by
      rw [h (n + 1) (by omega) (le_refl _)]
      simp
    simp only [walkBack, hD, if_false]
    exact ih (fun d' h1 h2 => h d' h1 (by omega))

theorem walkBack_isSome (f : Nat → Option ℚ) :
    ∀ D, 1 ≤ walkBack f D → (f (walkBack f D)).isSome := by
  intro D
  induction D with
  | zero => intro h; simp [walkBack] at h
  | succ n ih =>
    intro h
    by_cases hD : (f (n + 1)).isSome
    · simp [walkBack, hD]
    · rw [walkBack, if_neg hD] at h ⊢
      exact ih h

theorem sortByStart_eq_of_perm {ps ps' : List Period} (hperm : ps.Perm ps')
    (hnd : (ps.map Period.start).Nodup) : sortByStart ps = sortByStart ps' := by
  have hnd' : (ps'.map Period.start).Nodup := ((hperm.map Period.start).nodup_iff).mp hnd
  have hs1 : List.Sorted periodLe (sortByStart ps) := List.sorted_insertionSort periodLe ps
  have hs2 : List.Sorted periodLe (sortByStart ps') := List.sorted_insertionSort periodLe ps'
  have hp1 : (sortByStart ps).Perm ps := List.perm_insertionSort periodLe ps
  have hp2 : (sortByStart ps').Perm ps' := List.perm_insertionSort periodLe ps'
  have hn1 : ((sortByStart ps).map Period.start).Nodup := ((hp1.map Period.start).nodup_iff).mpr hnd
  have hn2 : ((sortByStart ps').map Period.start).Nodup := ((hp2.map Period.start).nodup_iff).mpr hnd'
  have hstrict : ∀ l : List Period, List.Sorted periodLe l → (l.map Period.start).Nodup →
      List.Sorted periodLtStart l := by
    intro l hs hn
    have hne : l.Pairwise (fun p q : Period => p.start ≠ q.start) :=
      (List.pairwise_map.mp hn)
    exact (hs.and hne).imp (fun hpq => dateLt_of_dateLe_of_ne hpq.1 hpq.2)
  have h1 := hstrict _ hs1 hn1
  have h2 := hstrict _ hs2 hn2
  exact List.eq_of_perm_of_sorted (hp1.trans (hperm.trans hp2.symm)) h1 h2
theorem percentageChangeOf_current_small {current : ℚ} (previous : ℚ)
    (h : ¬ MIN_PERCENTAGE_CHANGE ≤ current) : percentageChangeOf current previous = 0 := by
  simp [percentageChangeOf, h]

theorem percentageChangeOf_previous_small (current : ℚ) {previous : ℚ}
    (h : ¬ MIN_PERCENTAGE_CHANGE ≤ previous) : percentageChangeOf current previous = 0 := by
  simp only [percentageChangeOf]
  rw [if_neg (fun hc => h hc.2)]

theorem min_percentage_pos : ¬ MIN_PERCENTAGE_CHANGE ≤ (0 : ℚ) := by
  norm_num [MIN_PERCENTAGE_CHANGE]

theorem projectChange_pct_cases (t : Table) (a b : Date) (e : String) :
    (projectChange t a b e).current = none ∨
      (projectChange t a b e).pct
        = percentageChangeOf ((projectChange t a b e).current.getD 0)
            (projectChange t a b e).previous := by
  dsimp only [projectChange]
  repeat' split
  all_goals dsimp only
  all_goals first
    | exact Or.inl rfl
    | exact Or.inr rfl
    | exact Or.inr (percentageChangeOf_previous_small _ min_percentage_pos).symm
    | exact Or.inr (percentageChangeOf_current_small _ min_percentage_pos).symm

theorem projectChange_pct (t : Table) (a b : Date) (e : String) {c : ℚ}
    (hc : (projectChange t a b e).current = some c) :
    (projectChange t a b e).pct = percentageChangeOf c (projectChange t a b e).previous := by
  rcases projectChange_pct_cases t a b e with h | h
  · rw [hc] at h
    exact Option.noConfusion h
  · rw [hc] at h
    exact h

theorem projectChange_rawId (t : Table) (a b : Date) (e : String) :
    (projectChange t a b e).rawId = e := by
  dsimp only [projectChange]
  repeat' split
  all_goals rfl

theorem projectChange_current_found (t : Table) (a b : Date) (e : String)
    (hm : t.months e b.month = true)
    (hd : 1 ≤ walkBack (fun d => t.val e b.month d) b.day) :
    (projectChange t a b e).current
      = some ((t.val e b.month (walkBack (fun d => t.val e b.month d) b.day)).getD 0) := by
  dsimp only [projectChange]
  simp only [hm, if_true, hd]
  repeat' split
  all_goals simp_all

theorem projectChange_current_notfound (t : Table) (a b : Date) (e : String)
    (hm : t.months e b.month = true)
    (hd : walkBack (fun d => t.val e b.month d) b.day = 0) :
    (projectChange t a b e).current = none := by
  dsimp only [projectChange]
  simp only [hm, if_true, hd]
  repeat' split
  all_goals simp_all

theorem projectChange_month_absent (t : Table) (a b : Date) (e : String)
    (hm : t.months e b.month = false) :
    (projectChange t a b e).current = some 0 ∧ (projectChange t a b e).pct = 0 := by
  dsimp only [projectChange]
  simp only [hm]
  repeat' split
  all_goals simp_all

theorem projectChange_earliest_absent (t : Table) (a b : Date) (e : String)
    (hm2 : t.months e a.month = false) :
    (projectChange t a b e).previous = 0 ∧ (projectChange t a b e).pct = 0 := by
  dsimp only [projectChange]
  simp only [hm2]
  repeat' split
  all_goals simp_all

theorem accountChange_none (t : Table) (em lm ld : Nat) (e : String)
    (h : t.val e lm ld = none) : accountChange t em lm ld e = none := by
  simp [accountChange, h]

theorem accountChange_some (t : Table) (em lm ld : Nat) (e : String) (cur : ℚ)
    (h : t.val e lm ld = some cur) :
    accountChange t em lm ld e =
      some ⟨cur,
        getPreviousValue t e em (if t.val e em ld = none then ld - 1 else ld),
        percentageChangeOf cur
          (getPreviousValue t e em (if t.val e em ld = none then ld - 1 else ld))⟩ := by
  simp [accountChange, h]

/-- C10: in `_get_previous_value` an aligned previous-month day of at
most 1 yields a previous value of 0 regardless of the table contents, so
the account change calculation never uses a day-1 entry as its
previous-period baseline: whenever the day aligned by
`get_change_in_accounts` (after its single decrement) is at most 1, the
previous cost of the produced entry is 0 even when day 1 is present in
the table. -/
theorem claim_C10_day1_baseline_suppression :
    (∀ (t : Table) (e : String) (m d : Nat), d ≤ 1 → getPreviousValue t e m d = 0) ∧
    (∀ (t : Table) (em lm ld : Nat) (e : String) (r : ChangeEntry),
      accountChange t em lm ld e = some r →
      (if t.val e em ld = none then ld - 1 else ld) ≤ 1 → r.previous = 0) := by
  constructor
  · intro t e m d hd
    simp [getPreviousValue, hd]
  · intro t em lm ld e r hr hle
    rcases hv : t.val e lm ld with _ | cur
    · rw [accountChange_none t em lm ld e hv] at hr
      exact Option.noConfusion hr
    · rw [accountChange_some t em lm ld e cur hv] at hr
      obtain rfl := (Option.some.inj hr).symm
      simp only [getPreviousValue, if_pos hle]

/-- Witness for C10 at a table where day 1 of the earliest month is
present with value 7: the previous baseline is still 0. -/
theorem claim_C10_witness :
    exTableDay1.val "A" 10 1 = some 7 ∧
    getPreviousValue exTableDay1 "A" 10 1 = 0 ∧
    (⟨2, 0, 0⟩ : ChangeEntry).previous = 0 := by
  refine ⟨by decide, claim_C10_day1_baseline_suppression.1 exTableDay1 "A" 10 1 (by decide), ?_⟩
  refine claim_C10_day1_baseline_suppression.2 exTableDay1 10 11 1 "A" ⟨2, 0, 0⟩ ?_ ?_
  · rw [accountChange_some exTableDay1 10 11 1 "A" 2 (by decide)]
    have hv : exTableDay1.val "A" 10 1 = some 7 := by decide
    simp [hv, getPreviousValue, percentageChangeOf, min_percentage_pos]
  · have hv : exTableDay1.val "A" 10 1 = some 7 := by decide
    simp [hv]

/-- C4: the period boundary computation returns the date of `now` itself
when its day-of-month is 1 and the date of `now` minus one day otherwise
as the most recent full date, the first day of the month of that date as
the current month start, and the first day of the month before that as
the previous month start.  The function is modelled from the spec because
`get_month_starts` is absent from the provided sources. -/
theorem claim_C4_period_boundaries (now : Date) :
    (get_month_starts now).1
        = (if now.day = 1 then now else ⟨now.year, now.month, now.day - 1⟩) ∧
    (get_month_starts now).2.1 = monthStartOf (get_month_starts now).1 ∧
    (get_month_starts now).2.2 = previousMonthStartOf (get_month_starts now).2.1 := by
  refine ⟨rfl, rfl, ?_⟩
  rcases now with ⟨y, m, d⟩
  by_cases hd : d = 1
  · simp [get_month_starts, monthStartOf, previousMonthStartOf, hd]
  · simp [get_month_starts, monthStartOf, previousMonthStartOf, hd]

/-- C8 counterexample: the untagged raw id maps to the empty string, not
to a distinguished no-tag sentinel id (the sentinel the repository uses
elsewhere for the untagged project is the string "nothing_project_tag",
in the excluded chart path). -/
theorem claim_C8_counterexample :
    projectDisplayId "ProjectId$" = "" ∧ ¬(("" : String) = "nothing_project_tag") := by
  constructor
  · decide
  · decide

/-- C8 amended: stripping the tag prefix from a raw project grouping key
yields the display id, and the untagged raw key maps to the empty
string (no named sentinel is substituted in this code path). -/
theorem claim_C8_prefix_stripping :
    projectDisplayId "ProjectId$2895b79a-c8ff-428c-b45a-e581dad87b84"
        = "2895b79a-c8ff-428c-b45a-e581dad87b84" ∧
    projectDisplayId "ProjectId$" = "" := by
  constructor
  · decide
  · decide

/-- C9: no service named after the tax service name appears in the
itemized services of a project, and the total cost equals the sum of the
input service costs with the tax entries removed, so a Tax amount in the
input is excluded from both the list and the total. -/
theorem claim_C9_itemized_tax_exclusion (services : List (String × ℚ)) :
    (∀ sc ∈ itemizedServices services, ¬(sc.name = TAX_SERVICE_NAME)) ∧
    totalCost (itemizedServices services)
      = ((services.filter (fun s => s.1 ≠ TAX_SERVICE_NAME)).map Prod.snd).sum := by
  constructor
  · intro sc hsc
    have hmem : sc ∈ (services.filter (fun s => s.1 ≠ TAX_SERVICE_NAME)).map
        (fun s => (⟨s.1, s.2⟩ : ServiceCost)) :=
      (List.perm_insertionSort costGe _).subset hsc
    obtain ⟨s, hs, rfl⟩ := List.mem_map.mp hmem
    have hfil := List.of_mem_filter hs
    simpa using hfil
  · unfold totalCost itemizedServices
    rw [(((List.perm_insertionSort costGe
      ((services.filter (fun s => s.1 ≠ TAX_SERVICE_NAME)).map
        (fun s => (⟨s.1, s.2⟩ : ServiceCost))))).map ServiceCost.cost).sum_eq]
    rw [List.map_map]
    rfl

/-- Witness for C9 on a concrete input containing a Tax entry of cost 2:
the surviving services are EC2 and S3, Tax is absent, and the total is 6,
excluding the Tax amount. -/
theorem claim_C9_witness :
    itemizedServices exServices = [⟨"AmazonEC2", 5⟩, ⟨"AmazonS3", 1⟩] ∧
    ¬((⟨"AmazonEC2", (5 : ℚ)⟩ : ServiceCost).name = TAX_SERVICE_NAME) ∧
    totalCost (itemizedServices exServices) = 6 := by
  have heval : itemizedServices exServices = [⟨"AmazonEC2", 5⟩, ⟨"AmazonS3", 1⟩] := by
    simp [itemizedServices, exServices, TAX_SERVICE_NAME, List.insertionSort,
      List.orderedInsert, costGe]
  refine ⟨heval, ?_, ?_⟩
  · exact (claim_C9_itemized_tax_exclusion exServices).1 ⟨"AmazonEC2", 5⟩ (by rw [heval]; simp)
  · rw [(claim_C9_itemized_tax_exclusion exServices).2]
    simp [exServices, TAX_SERVICE_NAME]
    norm_num

/-- C2: in both change calculations, the percentage change of a produced
entry equals the rounded relative change exactly when both the current
and the previous value reach the minimum threshold, and is 0 in every
other case; the division is guarded by the threshold test. -/
theorem claim_C2_threshold_suppression :
    (∀ (t : Table) (em lm ld : Nat) (e : String) (r : ChangeEntry),
      accountChange t em lm ld e = some r →
      r.pct = if MIN_PERCENTAGE_CHANGE ≤ r.current ∧ MIN_PERCENTAGE_CHANGE ≤ r.previous
        then pyRound1 ((r.current / r.previous - 1) * 100) else 0) ∧
    (∀ (t : Table) (a b : Date) (e : String) (c : ℚ),
      (projectChange t a b e).current = some c →
      (projectChange t a b e).pct
        = if MIN_PERCENTAGE_CHANGE ≤ c ∧ MIN_PERCENTAGE_CHANGE ≤ (projectChange t a b e).previous
          then pyRound1 ((c / (projectChange t a b e).previous - 1) * 100) else 0) := by
  constructor
  · intro t em lm ld e r hr
    rcases hv : t.val e lm ld with _ | cur
    · rw [accountChange_none t em lm ld e hv] at hr
      exact Option.noConfusion hr
    · rw [accountChange_some t em lm ld e cur hv] at hr
      obtain rfl := (Option.some.inj hr).symm
      rfl
  · intro t a b e c hc
    rw [projectChange_pct t a b e hc]
    rfl

/-- Witness for C2 at the threshold fixture of the spec: current cost
0.005 with previous cost 10.0 yields a percentage change of 0 because
the current cost is below the threshold. -/
theorem claim_C2_witness :
    (projectChange exTableThreshold ⟨2022, 10, 1⟩ ⟨2022, 11, 14⟩ "P").current
        = some (1 / 200) ∧
    (projectChange exTableThreshold ⟨2022, 10, 1⟩ ⟨2022, 11, 14⟩ "P").previous = 10 ∧
    (projectChange exTableThreshold ⟨2022, 10, 1⟩ ⟨2022, 11, 14⟩ "P").pct
        = (if MIN_PERCENTAGE_CHANGE ≤ (1 / 200 : ℚ) ∧
            MIN_PERCENTAGE_CHANGE ≤ (projectChange exTableThreshold
              ⟨2022, 10, 1⟩ ⟨2022, 11, 14⟩ "P").previous
          then pyRound1 (((1 / 200 : ℚ) / (projectChange exTableThreshold
              ⟨2022, 10, 1⟩ ⟨2022, 11, 14⟩ "P").previous - 1) * 100) else 0) ∧
    (projectChange exTableThreshold ⟨2022, 10, 1⟩ ⟨2022, 11, 14⟩ "P").pct = 0 := by
  have hcur : (projectChange exTableThreshold ⟨2022, 10, 1⟩ ⟨2022, 11, 14⟩ "P").current
      = some (1 / 200) := by
    simp [projectChange, exTableThreshold, walkBack]
  have hprev : (projectChange exTableThreshold ⟨2022, 10, 1⟩ ⟨2022, 11, 14⟩ "P").previous
      = 10 := by
    simp [projectChange, exTableThreshold, walkBack]
  have hpct : (projectChange exTableThreshold ⟨2022, 10, 1⟩ ⟨2022, 11, 14⟩ "P").pct = 0 := by
    simp [projectChange, exTableThreshold, walkBack, percentageChangeOf, MIN_PERCENTAGE_CHANGE]
    norm_num
  exact ⟨hcur, hprev,
    claim_C2_threshold_suppression.2 exTableThreshold ⟨2022, 10, 1⟩ ⟨2022, 11, 14⟩ "P"
      (1 / 200) hcur, hpct⟩

/-- C3 counterexample: account A has latest-month data (day 1 of month
11, value 3) but no entry for the exact latest day 2; the account change
calculation does not walk back to day 1 as the claim states, it performs
a direct lookup that raises a `KeyError` (modelled by `none`). -/
theorem claim_C3_counterexample :
    (buildTable [exPeriodNov1]).val "A" 11 1 = some 3 ∧
    accountChange (buildTable [exPeriodNov1]) 10 11 2 "A" = none := by
  constructor
  · simp [buildTable, buildFrom, stepPeriod, stepGroup, carryIn, emptyTable, gKey,
      exPeriodNov1]
    norm_num [String.join]
  · apply accountChange_none
    decide

/-- C3 amended: the walk-back applies only to the project change
calculation: when the entity has latest-month data, the current cost is
the cumulative value of the nearest present day at or below the latest
day-of-month; when no such day at least 1 exists the current cost is left
unset (`None`, modelled `none`), not 0.  The account calculation performs
no walk-back: a missing entry for the exact latest day raises a
`KeyError` (modelled `none`). -/
theorem claim_C3_latest_day_walkback :
    (∀ (t : Table) (a b : Date) (e : String) (d' : Nat),
      t.months e b.month = true → 1 ≤ d' → d' ≤ b.day →
      (t.val e b.month d').isSome →
      (∀ d'', d' < d'' → d'' ≤ b.day → t.val e b.month d'' = none) →
      (projectChange t a b e).current = t.val e b.month d') ∧
    (∀ (t : Table) (a b : Date) (e : String),
      t.months e b.month = true →
      (∀ d', 1 ≤ d' → d' ≤ b.day → t.val e b.month d' = none) →
      (projectChange t a b e).current = none) ∧
    (∀ (t : Table) (em lm ld : Nat) (e : String),
      t.val e lm ld = none → accountChange t em lm ld e = none) := by
  refine ⟨?_, ?_, ?_⟩
  · intro t a b e d' hm h1 h2 hsome habove
    have hwb : walkBack (fun d => t.val e b.month d) b.day = d' :=
      walkBack_eq_of _ b.day d' h1 h2 hsome habove
    have hfound := projectChange_current_found t a b e hm (hwb ▸ h1)
    rw [hfound, hwb]
    rcases hv : t.val e b.month d' with _ | v
    · rw [hv] at hsome
      simp at hsome
    · simp
  · intro t a b e hm habsent
    exact projectChange_current_notfound t a b e hm (walkBack_eq_zero _ b.day habsent)
  · intro t em lm ld e h
    exact accountChange_none t em lm ld e h

/-- Witness for C3 at a table whose latest month has data only for day
3 while the latest day is 5: the current cost equals the day-3 value 4. -/
theorem claim_C3_witness :
    exTableWalk.val "P" 11 3 = some 4 ∧
    (projectChange exTableWalk ⟨2022, 10, 1⟩ ⟨2022, 11, 5⟩ "P").current
      = exTableWalk.val "P" 11 3 := by
  refine ⟨by decide, ?_⟩
  refine claim_C3_latest_day_walkback.1 exTableWalk ⟨2022, 10, 1⟩ ⟨2022, 11, 5⟩ "P" 3
    (by decide) (by decide) (by decide) (by decide) ?_
  intro d'' h1 h2
  interval_cases d''
  · rfl
  · rfl

/-- C5 counterexample: account B appears in the input (earliest month
October only) and is therefore iterated over, but it has no entry for the
latest day of the latest month (November 14), so the account change
calculation raises a `KeyError` (modelled `none`) instead of degrading
the gap to zero-valued fields. -/
theorem claim_C5_counterexample :
    "B" ∈ (accountsBuildTable ⟨2022, 11, 14⟩ exPsAccountGap).entities ∧
    accountChange (accountsBuildTable ⟨2022, 11, 14⟩ exPsAccountGap) 10 11 14 "B" = none := by
  constructor
  · decide
  · apply accountChange_none
    decide

/-- C5 amended: the project change calculation raises no exception and
degrades every gap to zero-valued fields, producing one complete entry
for every entity of the table: when the entity has latest-month data
with some present day at or below the latest day the current cost is
set; an absent latest month gives a zero current cost and zero
percentage; an absent earliest month gives a zero previous cost and zero
percentage; and every entity of the table receives an entry.  The
account change calculation does not share this property: an account with
no entry at the exact latest day raises a `KeyError` (see the
counterexample). -/
theorem claim_C5_no_exception_degradation :
    (∀ (t : Table) (a b : Date) (e : String),
      (t.months e b.month = true → 1 ≤ walkBack (fun d => t.val e b.month d) b.day) →
      (projectChange t a b e).current.isSome) ∧
    (∀ (t : Table) (a b : Date) (e : String),
      t.months e b.month = false →
      (projectChange t a b e).current = some 0 ∧ (projectChange t a b e).pct = 0) ∧
    (∀ (t : Table) (a b : Date) (e : String),
      t.months e a.month = false →
      (projectChange t a b e).previous = 0 ∧ (projectChange t a b e).pct = 0) ∧
    (∀ (t : Table) (a b : Date) (e : String),
      e ∈ t.entities → ∃ r ∈ projectChangeList t a b, r.rawId = e) := by
  refine ⟨?_, ?_, ?_, ?_⟩
  · intro t a b e h
    rcases hm : t.months e b.month with _ | _
    · rw [(projectChange_month_absent t a b e hm).1]
      rfl
    · rw [projectChange_current_found t a b e hm (h hm)]
      rfl
  · intro t a b e hm
    exact projectChange_month_absent t a b e hm
  · intro t a b e hm2
    exact projectChange_earliest_absent t a b e hm2
  · intro t a b e he
    exact ⟨projectChange t a b e, List.mem_map_of_mem _ he, projectChange_rawId t a b e⟩

/-- Witness for C5: at the walk-back fixture the entry of project P has
a set current cost; entity Q has no latest-month data and gets a
zero-valued entry; the earliest month of P is absent so its previous
cost is zero; and P receives an entry in the result list. -/
theorem claim_C5_witness :
    (projectChange exTableWalk ⟨2022, 10, 1⟩ ⟨2022, 11, 5⟩ "P").current.isSome ∧
    ((projectChange exTableWalk ⟨2022, 10, 1⟩ ⟨2022, 11, 5⟩ "Q").current = some 0 ∧
      (projectChange exTableWalk ⟨2022, 10, 1⟩ ⟨2022, 11, 5⟩ "Q").pct = 0) ∧
    ((projectChange exTableWalk ⟨2022, 10, 1⟩ ⟨2022, 11, 5⟩ "P").previous = 0 ∧
      (projectChange exTableWalk ⟨2022, 10, 1⟩ ⟨2022, 11, 5⟩ "P").pct = 0) ∧
    (∃ r ∈ projectChangeList exTableWalk ⟨2022, 10, 1⟩ ⟨2022, 11, 5⟩, r.rawId = "P") := by
  refine ⟨?_, ?_, ?_, ?_⟩
  · exact claim_C5_no_exception_degradation.1 exTableWalk ⟨2022, 10, 1⟩ ⟨2022, 11, 5⟩ "P"
      (fun _ => by decide)
  · exact claim_C5_no_exception_degradation.2.1 exTableWalk ⟨2022, 10, 1⟩ ⟨2022, 11, 5⟩ "Q"
      (by decide)
  · exact claim_C5_no_exception_degradation.2.2.1 exTableWalk ⟨2022, 10, 1⟩ ⟨2022, 11, 5⟩ "P"
      (by decide)
  · exact claim_C5_no_exception_degradation.2.2.2 exTableWalk ⟨2022, 10, 1⟩ ⟨2022, 11, 5⟩ "P"
      (by decide)

/-- C1 counterexample: when the fetcher returns the two November periods
in descending order, the table built by the account aggregation (which
does not sort) gives day 2 the value 5 although day 1 is present with
value 3, violating the claimed recurrence, which demands 3 + 5 for
day 2. -/
theorem claim_C1_counterexample :
    (accountsBuildTable ⟨2022, 11, 14⟩ exPsRev).val "A" 11 2 = some 5 ∧
    (accountsBuildTable ⟨2022, 11, 14⟩ exPsRev).val "A" 11 1 = some 3 ∧
    ¬((5 : ℚ) = 3 + 5) := by
  refine ⟨?_, ?_, by norm_num⟩
  · simp [accountsBuildTable, buildTable, buildFrom, stepPeriod, stepGroup, carryIn,
      emptyTable, gKey, exPsRev, exPeriodNov1, exPeriodNov2, dateLe]
    norm_num [String.join]
  · simp [accountsBuildTable, buildTable, buildFrom, stepPeriod, stepGroup, carryIn,
      emptyTable, gKey, exPsRev, exPeriodNov1, exPeriodNov2, dateLe]
    norm_num [String.join]

/-- C1 amended: the cumulative recurrence holds for the aggregation loop
shared by both pipelines whenever the processed period sequence is
strictly increasing in its (month, day) keys — which the projects
pipeline establishes by sorting any input with distinct dates inside a
two-month window, while the accounts pipeline relies on the fetcher
already delivering that order — and each period lists an entity at most
once: the entry for (entity, month, day) is that day's amount plus the
entry for day-1, with a carry of 0 at day 1 or when day-1 is absent; in
particular the day-1 entry is the day amount alone, with no carry from
the prior month. -/
theorem claim_C1_cumulative_recurrence (ps : List Period) (p : Period) (g : CostGroup)
    (hsort : ps.Pairwise (fun p q => mdLt p.md q.md))
    (hnd : ∀ q ∈ ps, (q.groups.map gKey).Nodup)
    (hday : ∀ q ∈ ps, 1 ≤ q.start.day)
    (hp : p ∈ ps) (hg : g ∈ p.groups) :
    (buildTable ps).val (gKey g) p.start.month p.start.day =
      some ((if p.start.day = 1 then 0
        else ((buildTable ps).val (gKey g) p.start.month (p.start.day - 1)).getD 0)
        + g.amount) :=
  val_buildTable_recurrence ps hsort hnd hday hp hg

/-- Witness for C1 on the two sorted November periods: the day-2 entry
is the day-1 entry 3 plus the day-2 amount 5. -/
theorem claim_C1_witness :
    (buildTable exPsSorted).val (gKey ⟨["A"], 5⟩) exPeriodNov2.start.month
        exPeriodNov2.start.day =
      some ((if exPeriodNov2.start.day = 1 then 0
        else ((buildTable exPsSorted).val (gKey ⟨["A"], 5⟩) exPeriodNov2.start.month
          (exPeriodNov2.start.day - 1)).getD 0) + (⟨["A"], 5⟩ : CostGroup).amount) ∧
    (buildTable exPsSorted).val "A" 11 2 = some 8 := by
  constructor
  · exact claim_C1_cumulative_recurrence exPsSorted exPeriodNov2 ⟨["A"], 5⟩
      (by decide) (by decide) (by decide) (by decide) (by decide)
  · simp [buildTable, buildFrom, stepPeriod, stepGroup, carryIn, emptyTable, gKey,
      exPsSorted, exPeriodNov1, exPeriodNov2]
    norm_num [String.join]

/-- C6 counterexample: for the descending arrival order of the two
November periods, the table built by the account pipeline differs from
the table built from the date-sorted sequence: the day-2 entry is 5
instead of 8. -/
theorem claim_C6_counterexample :
    (accountsBuildTable ⟨2022, 11, 14⟩ exPsRev).val "A" 11 2 = some 5 ∧
    (buildTable (sortByStart exPsRev)).val "A" 11 2 = some 8 ∧
    ¬((5 : ℚ) = 8) := by
  refine ⟨?_, ?_, by norm_num⟩
  · simp [accountsBuildTable, buildTable, buildFrom, stepPeriod, stepGroup, carryIn,
      emptyTable, gKey, exPsRev, exPeriodNov1, exPeriodNov2, dateLe]
    norm_num [String.join]
  · have hsortEq : sortByStart exPsRev = exPsSorted := by decide
    rw [hsortEq]
    simp [buildTable, buildFrom, stepPeriod, stepGroup, carryIn, emptyTable, gKey,
      exPsSorted, exPeriodNov1, exPeriodNov2]
    norm_num [String.join]

/-- C6 amended: only the projects pipeline sorts the periods before
aggregation, so its cumulative table does not depend on the arrival
order when the period start dates are pairwise distinct; the accounts
pipeline processes periods in arrival order and its table can differ
from the table of the date-sorted sequence (see the counterexample). -/
theorem claim_C6_order_insensitivity (ps ps' : List Period)
    (hperm : ps.Perm ps') (hnd : (ps.map Period.start).Nodup) :
    projectsBuildTable ps = projectsBuildTable ps' :=
  congrArg buildTable (sortByStart_eq_of_perm hperm hnd)

/-- Witness for C6: the two arrival orders of the November periods give
the same projects table. -/
theorem claim_C6_witness :
    projectsBuildTable exPsRev = projectsBuildTable exPsSorted :=
  claim_C6_order_insensitivity exPsRev exPsSorted (by decide) (by decide)

/-- C7: in a table built from a strictly (month, day)-sorted period
sequence with per-period unique entities, valid days and non-negative
amounts, the cumulative value of an entity is non-decreasing across
consecutive present days of one month. -/
theorem claim_C7_monotonicity (ps : List Period) (e : String) (m d : Nat) (w v : ℚ)
    (hsort : ps.Pairwise (fun p q => mdLt p.md q.md))
    (hnd : ∀ q ∈ ps, (q.groups.map gKey).Nodup)
    (hday : ∀ q ∈ ps, 1 ≤ q.start.day)
    (hpos : ∀ q ∈ ps, ∀ g ∈ q.groups, 0 ≤ g.amount)
    (hw : (buildTable ps).val e m d = some w)
    (hv : (buildTable ps).val e m (d + 1) = some v) : w ≤ v := by
  obtain ⟨p, hp, g, hg, hk, hm, hd⟩ := exists_write_of_val_some ps hv
  have hrec := val_buildTable_recurrence ps hsort hnd hday hp hg
  rw [← hk, ← hm, ← hd] at hrec
  rw [hv] at hrec
  have hd1 : ¬(d + 1 = 1) := by
    intro h1
    have hd0 : d = 0 := by omega
    rw [hd0] at hw
    obtain ⟨q, hq, _, _, _, _, hqd⟩ := exists_write_of_val_some ps hw
    have := hday q hq
    omega
  rw [if_neg hd1] at hrec
  have hveq : v = w + g.amount := by
    have := Option.some.inj hrec
    simpa [hw] using this
  rw [hveq]
  have hge := hpos p hp g hg
  linarith

/-- Witness for C7 on the two sorted November periods: day 1 holds 3,
day 2 holds 8, and 3 is at most 8. -/
theorem claim_C7_witness :
    (buildTable exPsSorted).val "A" 11 1 = some 3 ∧
    (buildTable exPsSorted).val "A" 11 2 = some 8 ∧
    (3 : ℚ) ≤ 8 := by
  have h1 : (buildTable exPsSorted).val "A" 11 1 = some 3 := by
    simp [buildTable, buildFrom, stepPeriod, stepGroup, carryIn, emptyTable, gKey,
      exPsSorted, exPeriodNov1, exPeriodNov2]
    norm_num [String.join]
  have h2 : (buildTable exPsSorted).val "A" 11 2 = some 8 := by
    simp [buildTable, buildFrom, stepPeriod, stepGroup, carryIn, emptyTable, gKey,
      exPsSorted, exPeriodNov1, exPeriodNov2]
    norm_num [String.join]
  exact ⟨h1, h2, claim_C7_monotonicity exPsSorted "A" 11 1 3 8
    (by decide) (by decide) (by decide) (by decide) h1 h2⟩
